import Mathlib

/-!
Verification of the interactive remote session driver pattern repeated in
the `scripts/` directory of the One-UI repository.  The scripts come in
three shapes, all embedded below:

* `run_ssh` (check_backend.py, view_compose.py, diagnose_vps.py,
  deploy_frontend.py, fix_and_deploy.py, fix_compose.py, fix_db_url.py,
  fix_vps_permanent.py): select-based drain loop with an absolute deadline,
  chunks decoded with `errors='replace'`, banner read before the password
  write and discarded, post-loop `os.waitpid(pid, os.WNOHANG)`.
* `run_ssh_command` (remove_limits_vps.py, restart_backend_vps.py,
  update_env_vps.py): blocking `os.read` loop with no deadline, strict
  `.decode()` inside a handler catching only `OSError`, a sentinel tested
  against the latest chunk, post-loop blocking `os.waitpid(pid, 0)`.
* the `__main__` loop of fix_git_update.py: blocking read loop that
  accumulates raw bytes, decodes the whole buffer with `errors='ignore'`,
  and writes the password once when `"password:"` occurs in the text,
  gated by the `password_sent` flag; post-loop blocking `os.waitpid(pid, 0)`.

Bytes are modelled as natural numbers below 256 and decoded text as lists
of Unicode code points.
-/

/-- Code points of a string literal, used to write byte/text constants. -/
def strCodes (s : String) : List Nat :=
  s.data.map Char.toNat

/-- Boolean test that `n` is a prefix of `h`, mirroring the prefix step of
Python's substring containment test. -/
def listPrefixOf : List Nat → List Nat → Bool
  | [], _ => true
  | _ :: _, [] => false
  | a :: as, b :: bs => a == b && listPrefixOf as bs

/-- Boolean substring containment, the model of Python's `needle in hay`
for text. -/
def containsSub (needle : List Nat) : List Nat → Bool
  | [] => listPrefixOf needle []
  | b :: bs => listPrefixOf needle (b :: bs) || containsSub needle bs

/-- One step of the UTF-8 decoder: classify a byte as a continuation byte. -/
def isContByte (b : Nat) : Bool := 0x80 ≤ b && b ≤ 0xBF

/-- Valid range of the first continuation byte after a three-byte leader,
following the UTF-8 well-formedness table (rejecting overlong forms and
surrogates) that CPython's decoder implements. -/
def validCont3 (b c : Nat) : Bool :=
  if b = 0xE0 then 0xA0 ≤ c && c ≤ 0xBF
  else if b = 0xED then 0x80 ≤ c && c ≤ 0x9F
  else isContByte c

/-- Valid range of the first continuation byte after a four-byte leader. -/
def validCont4 (b c : Nat) : Bool :=
  if b = 0xF0 then 0x90 ≤ c && c ≤ 0xBF
  else if b = 0xF4 then 0x80 ≤ c && c ≤ 0x8F
  else isContByte c

/-- UTF-8 decoding of a byte list into code points, with `none` marking one
maximal invalid subpart, the unit that CPython's `bytes.decode` reports as
one `UnicodeDecodeError` (strict), replaces by one U+FFFD (`replace`), or
skips (`ignore`).  The `fuel` argument only forces structural recursion:
every step consumes at least one byte, so with `fuel` equal to the list
length (as `utf8DecodeAux` passes it) the fuel never runs out. -/
def utf8DecodeFuel : Nat → List Nat → List (Option Nat)
  | _, [] => []
  | 0, _ :: _ => []
  | fuel + 1, b :: rest =>
    if b < 0x80 then some b :: utf8DecodeFuel fuel rest
    else if 0xC2 ≤ b && b ≤ 0xDF then
      match rest with
      | [] => [none]
      | c1 :: r1 =>
        if isContByte c1 then
          some ((b - 0xC0) * 0x40 + (c1 - 0x80)) :: utf8DecodeFuel fuel r1
        else none :: utf8DecodeFuel fuel (c1 :: r1)
    else if 0xE0 ≤ b && b ≤ 0xEF then
      match rest with
      | [] => [none]
      | c1 :: r1 =>
        if validCont3 b c1 then
          match r1 with
          | [] => [none]
          | c2 :: r2 =>
            if isContByte c2 then
              some ((b - 0xE0) * 0x1000 + (c1 - 0x80) * 0x40 + (c2 - 0x80)) ::
                utf8DecodeFuel fuel r2
            else none :: utf8DecodeFuel fuel (c2 :: r2)
        else none :: utf8DecodeFuel fuel (c1 :: r1)
    else if 0xF0 ≤ b && b ≤ 0xF4 then
      match rest with
      | [] => [none]
      | c1 :: r1 =>
        if validCont4 b c1 then
          match r1 with
          | [] => [none]
          | c2 :: r2 =>
            if isContByte c2 then
              match r2 with
              | [] => [none]
              | c3 :: r3 =>
                if isContByte c3 then
                  some ((b - 0xF0) * 0x40000 + (c1 - 0x80) * 0x1000 +
                    (c2 - 0x80) * 0x40 + (c3 - 0x80)) :: utf8DecodeFuel fuel r3
                else none :: utf8DecodeFuel fuel (c3 :: r3)
            else none :: utf8DecodeFuel fuel (c2 :: r2)
        else none :: utf8DecodeFuel fuel (c1 :: r1)
    else none :: utf8DecodeFuel fuel rest

/-- UTF-8 decoding with the fuel instantiated so it cannot run out. -/
def utf8DecodeAux (bs : List Nat) : List (Option Nat) :=
  utf8DecodeFuel bs.length bs

/-- Model of Python's `bytes.decode('utf-8')` (strict): `none` when the
bytes are not valid UTF-8, in which case the script raises
`UnicodeDecodeError`. -/
def utf8DecodeStrict (bs : List Nat) : Option (List Nat) :=
  if (utf8DecodeAux bs).any Option.isNone then none
  else some ((utf8DecodeAux bs).filterMap id)

/-- Model of Python's `bytes.decode(errors='replace')`: each maximal
invalid subpart becomes U+FFFD. -/
def pyDecodeReplace (bs : List Nat) : List Nat :=
  (utf8DecodeAux bs).map (fun o => o.getD 0xFFFD)

/-- Model of Python's `bytes.decode('utf-8', errors='ignore')`: invalid
subparts are dropped. -/
def pyDecodeIgnore (bs : List Nat) : List Nat :=
  (utf8DecodeAux bs).filterMap id

/-- The prompt substring `"password:"` tested by fix_git_update.py. -/
def pwPrompt : List Nat := strCodes "password:"

/-- Result of the non-blocking `os.waitpid(pid, os.WNOHANG)` probe inside
the select branch of `run_ssh`: the child is still running (`wpid == 0`),
has exited (`wpid != 0`), or `waitpid` raised (bare `except: break`). -/
inductive WaitRes
  | running
  | exited
  | waitErr
deriving DecidableEq, Repr

/-- One iteration's environment behaviour for the select-based drain loop
of `run_ssh`: either `select` reports the stream readable after `dt` time
units and `os.read` yields `chunk` (`[]` models EOF), or `select` times out
after one full polling interval and the `waitpid` probe answers `w`, or the
`select`/`read` call raises `OSError` after `dt` time units. -/
inductive PollEv
  | ready (dt : Nat) (chunk : List Nat)
  | quiet (w : WaitRes)
  | ioErr (dt : Nat)
deriving DecidableEq, Repr

/-- Duration a `run_ssh` loop iteration spends in its environment event;
`quiet` always costs one full polling interval. -/
def evDur (pollIv : Nat) : PollEv → Nat
  | .ready dt _ => dt
  | .quiet _ => pollIv
  | .ioErr dt => dt

/-- Exit path of the `run_ssh` drain loop.  `starved` is a model artifact
for a trace that ends before the loop does. -/
inductive DrainReason
  | streamClosed
  | procExit
  | waitError
  | ioError
  | timeout
  | starved
deriving DecidableEq, Repr

/-- Result of the `run_ssh` drain loop: the decoded chunks appended to
`output` in arrival order, a ghost copy of the raw byte chunks read from
the stream, the time at which the loop ended, and its exit path. -/
structure DrainARes where
  out : List (List Nat)
  raw : List (List Nat)
  time : Nat
  reason : DrainReason
deriving DecidableEq, Repr

/-- The `while time.time() < deadline` loop of `run_ssh`
(check_backend.py lines 30-47 and its copies): on a readable stream the
chunk is decoded with `errors='replace'`; an empty result breaks the loop,
otherwise it is appended; on a quiet interval the child is probed with
`os.waitpid(pid, os.WNOHANG)`; `OSError` breaks the loop.  `raw` records
the bytes each `os.read` returned (a ghost observation, not program
state). -/
def run_ssh_drain (pollIv deadline : Nat) :
    List PollEv → Nat → List (List Nat) → List (List Nat) → DrainARes
  | [], t, acc, raw =>
    if deadline ≤ t then ⟨acc, raw, t, .timeout⟩ else ⟨acc, raw, t, .starved⟩
  | ev :: rest, t, acc, raw =>
    if deadline ≤ t then ⟨acc, raw, t, .timeout⟩
    else
      match ev with
      | .ready dt chunk =>
        let data := pyDecodeReplace chunk
        if data.isEmpty then ⟨acc, raw ++ [chunk], t + dt, .streamClosed⟩
        else run_ssh_drain pollIv deadline rest (t + dt) (acc ++ [data]) (raw ++ [chunk])
      | .quiet w =>
        match w with
        | .running => run_ssh_drain pollIv deadline rest (t + pollIv) acc raw
        | .exited => ⟨acc, raw, t + pollIv, .procExit⟩
        | .waitErr => ⟨acc, raw, t + pollIv, .waitError⟩
      | .ioErr dt => ⟨acc, raw, t + dt, .ioError⟩

/-- Model of `os.waitpid(pid, flag)` return time: with `os.WNOHANG` it
returns at once; with flag `0` it blocks until the child has exited. -/
def waitpidRet (blocking : Bool) (now childExit : Nat) : Nat :=
  if blocking then max now childExit else now

/-- Caller-visible result of one `run_ssh` call: the function returns only
`"".flatten(output)`; `retTime` is the wall-clock time at which it returns. -/
structure SshARes where
  transcript : List Nat
  retTime : Nat
deriving DecidableEq, Repr

/-- The `run_ssh` function of check_backend.py and its copies, from the
deadline computation on: `banner` is the initial pre-password read (bound
to `initial` in the source and never used again; `none` models the read
raising inside its bare `try/except: pass`), `evs` drives the drain loop
starting at time `t0` with `deadline = t0 + timeout`, and the post-loop
`os.waitpid(pid, os.WNOHANG)` is non-blocking. -/
def run_ssh (pollIv timeout : Nat) (banner : Option (List Nat))
    (evs : List PollEv) (t0 childExit : Nat) : SshARes :=
  let r := run_ssh_drain pollIv (t0 + timeout) evs t0 [] []
  ⟨r.out.flatten, waitpidRet false r.time childExit⟩

/-- Ghost observation: all bytes the driver read from the stream during one
`run_ssh` step, the pre-password banner read included. -/
def bytesReadA (banner : Option (List Nat)) (r : DrainARes) : List Nat :=
  banner.getD [] ++ r.raw.flatten

/-- One environment event for the blocking-read loops (`run_ssh_command`
of the sentinel scripts, and fix_git_update.py): `os.read` returns `chunk`
after blocking `dt` time units (`[]` models EOF), or raises `OSError`. -/
inductive BEv
  | data (dt : Nat) (chunk : List Nat)
  | oserr (dt : Nat)
deriving DecidableEq, Repr

/-- Exit path of a blocking-read loop. -/
inductive BReason
  | eof
  | sentinelFound
  | osError
  | starved
deriving DecidableEq, Repr

/-- Result of the `run_ssh_command` read loop. -/
structure BRes where
  out : List (List Nat)
  time : Nat
  reason : BReason
deriving DecidableEq, Repr

/-- The `while True` read loop of `run_ssh_command`
(remove_limits_vps.py lines 25-35 and its copies in restart_backend_vps.py
and update_env_vps.py): `os.read(fd, 1024).decode()` decodes strictly and
only `OSError` is caught, so an invalid chunk propagates
`UnicodeDecodeError` (the `.error` result); an empty decode breaks, the
chunk is appended, and the sentinel is tested against the latest decoded
chunk `data` only. -/
def run_ssh_command_loop (sentinel : List Nat) :
    List BEv → Nat → List (List Nat) → Except Unit BRes
  | [], t, acc => .ok ⟨acc, t, .starved⟩
  | .oserr dt :: _, t, acc => .ok ⟨acc, t + dt, .osError⟩
  | .data dt chunk :: rest, t, acc =>
    match utf8DecodeStrict chunk with
    | none => .error ()
    | some data =>
      if data.isEmpty then .ok ⟨acc, t + dt, .eof⟩
      else if containsSub sentinel data then .ok ⟨acc ++ [data], t + dt, .sentinelFound⟩
      else run_ssh_command_loop sentinel rest (t + dt) (acc ++ [data])

/-- The `run_ssh_command` function of the sentinel scripts, from the loop
on: on normal loop exit the blocking `os.waitpid(pid, 0)` runs before
`"".flatten(output)` is returned, so the return time also waits for the
child's exit; an uncaught `UnicodeDecodeError` propagates instead. -/
def run_ssh_command (sentinel : List Nat) (evs : List BEv)
    (t0 childExit : Nat) : Except Unit (List Nat × Nat) :=
  match run_ssh_command_loop sentinel evs t0 [] with
  | .error e => .error e
  | .ok r => .ok (r.out.flatten, waitpidRet true r.time childExit)

/-- Exit path of the fix_git_update.py read loop. -/
inductive FReason
  | eof
  | osError
  | starved
deriving DecidableEq, Repr

/-- Result of the fix_git_update.py read loop: the accumulated
`output_buffer`, the number of password writes performed, the final
`password_sent` flag, the loop end time and its exit path. -/
structure FRes where
  buffer : List Nat
  writes : Nat
  sent : Bool
  time : Nat
  reason : FReason
deriving DecidableEq, Repr

/-- The `while True` loop of fix_git_update.py (lines 23-36): raw chunks
are appended to `output_buffer`, the whole buffer is decoded with
`errors='ignore'`, and the password is written once when `"password:"`
occurs in that text and `password_sent` is still false. -/
def fix_git_update_loop (pw : List Nat) :
    List BEv → List Nat → Bool → Nat → Nat → FRes
  | [], buf, s, w, t => ⟨buf, w, s, t, .starved⟩
  | .oserr dt :: _, buf, s, w, t => ⟨buf, w, s, t + dt, .osError⟩
  | .data dt chunk :: rest, buf, s, w, t =>
    if chunk.isEmpty then ⟨buf, w, s, t + dt, .eof⟩
    else
      let buf2 := buf ++ chunk
      let text := pyDecodeIgnore buf2
      if containsSub pw text && !s then
        fix_git_update_loop pw rest buf2 true (w + 1) (t + dt)
      else fix_git_update_loop pw rest buf2 s w (t + dt)

/-- The parent branch of fix_git_update.py: the read loop from the start
state, then `os.close(fd)` and the blocking `os.waitpid(pid, 0)`; the
second component is the time at which the script's wait returns. -/
def fix_git_update_run (evs : List BEv) (childExit : Nat) : FRes × Nat :=
  let r := fix_git_update_loop pwPrompt evs [] false 0 0
  (r, waitpidRet true r.time childExit)

/-- Observation function for fix_git_update.py: whether the loop, reading
`evs` with `output_buffer` already holding `buf`, ever sees `"password:"`
in the decoded accumulated buffer before EOF or an `OSError`. -/
def promptHit (pw : List Nat) : List BEv → List Nat → Bool
  | [], _ => false
  | .oserr _ :: _, _ => false
  | .data _ chunk :: rest, buf =>
    if chunk.isEmpty then false
    else
      let buf2 := buf ++ chunk
      if containsSub pw (pyDecodeIgnore buf2) then true
      else promptHit pw rest buf2

/-- Environment of one step of the `__main__` sequence of the select-based
scripts (fix_vps_permanent.py lines 65-97 and the other `run_ssh` callers):
either `pty.fork()` raises `OSError` in the parent (`forkFail`, the
SpawnError case), or the session spawns and behaves as described by the
banner read, the poll events, the step's timeout and the child's exit
time. -/
inductive StepEnv
  | forkFail
  | spawned (banner : Option (List Nat)) (evs : List PollEv)
      (timeout : Nat) (childExit : Nat)
deriving DecidableEq, Repr

/-- Transcript a spawned step's `run_ssh` call returns. -/
def stepTranscript (pollIv t0 : Nat) : StepEnv → List Nat
  | .forkFail => []
  | .spawned b evs timeout ce => (run_ssh pollIv timeout b evs t0 ce).transcript

/-- The `__main__` block of the select-based scripts: `run_ssh` is called
once per step, strictly in order, with no surrounding `try`; an `OSError`
from `pty.fork()` is uncaught and terminates the whole script
(`.error`). -/
def scriptMain (pollIv t0 : Nat) : List StepEnv → Except Unit (List (List Nat))
  | [] => .ok []
  | .forkFail :: _ => .error ()
  | .spawned b evs timeout ce :: rest =>
    match scriptMain pollIv t0 rest with
    | .error e => .error e
    | .ok ts => .ok ((run_ssh pollIv timeout b evs t0 ce).transcript :: ts)

/-- A read event is plain for `sentinel` when its chunk decodes strictly to
nonempty text not containing the sentinel, so the `run_ssh_command` loop
appends it and keeps reading. -/
def plainEv (sentinel : List Nat) : BEv → Bool
  | .data _ chunk =>
    match utf8DecodeStrict chunk with
    | some d => !d.isEmpty && !containsSub sentinel d
    | none => false
  | .oserr _ => false

/-- Decoded text of a read event's chunk (empty for an error event). -/
def decEv : BEv → List Nat
  | .data _ chunk => (utf8DecodeStrict chunk).getD []
  | .oserr _ => []

/-- Blocking duration of a read event. -/
def evDt : BEv → Nat
  | .data dt _ => dt
  | .oserr dt => dt

theorem listPrefixOf_append {n h post : List Nat} (hp : listPrefixOf n h = true) :
    listPrefixOf n (h ++ post) = true := by
  induction n generalizing h with
  | nil => simp [listPrefixOf]
  | cons a as ih =>
    cases h with
    | nil => simp [listPrefixOf] at hp
    | cons b bs =>
      simp only [listPrefixOf, Bool.and_eq_true] at hp ⊢
      exact ⟨hp.1, ih hp.2⟩

theorem containsSub_append_left {n h : List Nat} (pre : List Nat)
    (hc : containsSub n h = true) : containsSub n (pre ++ h) = true := by
  induction pre with
  | nil => simpa using hc
  | cons a as ih =>
    cases h with
    | nil => simp only [containsSub] at hc ⊢; cases n <;> simp_all [listPrefixOf, containsSub]
    | cons b bs =>
      simp only [List.cons_append, containsSub, Bool.or_eq_true]
      right
      exact ih

theorem utf8DecodeAux_ascii {bs : List Nat} (h : ∀ b ∈ bs, b < 0x80) :
    utf8DecodeAux bs = bs.map some := by
  induction bs with
  | nil => rfl
  | cons b rest ih =>
    have hb : b < 0x80 := h b (by simp)
    have ih' := ih (fun x hx => h x (List.mem_cons_of_mem b hx))
    simp only [utf8DecodeAux, List.length_cons] at ih' ⊢
    simp only [utf8DecodeFuel, hb, if_true, List.map_cons, List.cons.injEq, true_and]
    exact ih'

theorem pyDecodeReplace_ascii {bs : List Nat} (h : ∀ b ∈ bs, b < 0x80) :
    pyDecodeReplace bs = bs := by
  simp [pyDecodeReplace, utf8DecodeAux_ascii h, List.map_map, Function.comp_def]

theorem flatten_filter_decode (cs : List (List Nat)) :
    ((cs.filter fun c => !(pyDecodeReplace c).isEmpty).map pyDecodeReplace).flatten
      = (cs.map pyDecodeReplace).flatten := by
  induction cs with
  | nil => simp
  | cons c rest ih =>
    by_cases hc : (pyDecodeReplace c).isEmpty
    · have : pyDecodeReplace c = [] := by simpa [List.isEmpty_iff] using hc
      simp [List.filter_cons, hc, this, ih]
    · simp [List.filter_cons, hc, ih]

theorem run_ssh_drain_time_le (pollIv dl : Nat) :
    ∀ (evs : List PollEv) (t : Nat) (acc raw : List (List Nat)),
      t ≤ dl + pollIv → (∀ ev ∈ evs, evDur pollIv ev ≤ pollIv) →
      (run_ssh_drain pollIv dl evs t acc raw).time ≤ dl + pollIv := by
  intro evs
  induction evs with
  | nil =>
    intro t acc raw ht _
    by_cases hd : dl ≤ t <;> simp [run_ssh_drain, hd, ht]
  | cons ev rest ih =>
    intro t acc raw ht hev
    by_cases hd : dl ≤ t
    · simp [run_ssh_drain, hd, ht]
    · have hlt : t < dl := Nat.lt_of_not_le hd
      have hevr : ∀ e ∈ rest, evDur pollIv e ≤ pollIv :=
        fun e he => hev e (List.mem_cons_of_mem _ he)
      have hstep : ∀ d, d ≤ pollIv → t + d ≤ dl + pollIv := by
        intro d hdur
        have := Nat.add_le_add (Nat.le_of_lt hlt) hdur
        omega
      cases ev with
      | ready dt chunk =>
        have hdt : dt ≤ pollIv := by simpa [evDur] using hev _ (List.mem_cons_self _ _)
        by_cases hc : (pyDecodeReplace chunk).isEmpty
        · simp [run_ssh_drain, hd, hc, hstep dt hdt]
        · simp only [run_ssh_drain, if_neg hd, hc]
          simp only [Bool.false_eq_true, if_false]
          exact ih (t + dt) _ _ (hstep dt hdt) hevr
      | quiet w =>
        cases w with
        | running =>
          simp only [run_ssh_drain, if_neg hd]
          exact ih (t + pollIv) _ _ (hstep pollIv le_rfl) hevr
        | exited => simp [run_ssh_drain, hd, hstep pollIv le_rfl]
        | waitErr => simp [run_ssh_drain, hd, hstep pollIv le_rfl]
      | ioErr dt =>
        have hdt : dt ≤ pollIv := by simpa [evDur] using hev _ (List.mem_cons_self _ _)
        simp [run_ssh_drain, hd, hstep dt hdt]

theorem run_ssh_drain_chunks (pollIv dl : Nat) :
    ∀ (evs : List PollEv) (t : Nat) (acc raw : List (List Nat)),
      ∃ cs : List (List Nat),
        (run_ssh_drain pollIv dl evs t acc raw).raw = raw ++ cs ∧
        (run_ssh_drain pollIv dl evs t acc raw).out =
          acc ++ (cs.filter fun c => !(pyDecodeReplace c).isEmpty).map pyDecodeReplace := by
  intro evs
  induction evs with
  | nil =>
    intro t acc raw
    exact ⟨[], by by_cases hd : dl ≤ t <;> simp [run_ssh_drain, hd]⟩
  | cons ev rest ih =>
    intro t acc raw
    by_cases hd : dl ≤ t
    · exact ⟨[], by simp [run_ssh_drain, hd]⟩
    · cases ev with
      | ready dt chunk =>
        by_cases hc : (pyDecodeReplace chunk).isEmpty
        · refine ⟨[chunk], ?_⟩
          simp [run_ssh_drain, hd, hc, List.filter_cons]
        · obtain ⟨cs, h1, h2⟩ := ih (t + dt) (acc ++ [pyDecodeReplace chunk]) (raw ++ [chunk])
          refine ⟨chunk :: cs, ?_, ?_⟩
          · simp only [run_ssh_drain, if_neg hd, hc]
            simp only [Bool.false_eq_true, if_false]
            rw [h1]
            simp
          · simp only [run_ssh_drain, if_neg hd, hc]
            simp only [Bool.false_eq_true, if_false]
            rw [h2]
            simp [List.filter_cons, hc]
      | quiet w =>
        cases w with
        | running =>
          obtain ⟨cs, h1, h2⟩ := ih (t + pollIv) acc raw
          refine ⟨cs, ?_, ?_⟩ <;> simp only [run_ssh_drain, if_neg hd] <;> assumption
        | exited => exact ⟨[], by simp [run_ssh_drain, hd]⟩
        | waitErr => exact ⟨[], by simp [run_ssh_drain, hd]⟩
      | ioErr dt => exact ⟨[], by simp [run_ssh_drain, hd]⟩

theorem fix_git_update_writes_aux (pw : List Nat) :
    ∀ (evs : List BEv) (buf : List Nat) (s : Bool) (w t : Nat),
      (fix_git_update_loop pw evs buf s w t).writes =
        w + (if s then 0 else if promptHit pw evs buf then 1 else 0) := by
  intro evs
  induction evs with
  | nil => intro buf s t w; cases s <;> simp [fix_git_update_loop, promptHit]
  | cons ev rest ih =>
    intro buf s w t
    cases ev with
    | oserr dt => cases s <;> simp [fix_git_update_loop, promptHit]
    | data dt chunk =>
      by_cases hc : chunk.isEmpty
      · cases s <;> simp [fix_git_update_loop, promptHit, hc]
      · by_cases hp : containsSub pw (pyDecodeIgnore (buf ++ chunk)) = true
        · cases s <;> simp [fix_git_update_loop, promptHit, hc, hp, ih]
        · cases s <;> simp [fix_git_update_loop, promptHit, hc, hp, ih]

theorem fix_git_update_reason_eof (pw : List Nat) :
    ∀ (pre : List (Nat × List Nat)) (dt : Nat) (buf : List Nat) (s : Bool) (w t : Nat),
      (∀ p ∈ pre, p.2 ≠ []) →
      (fix_git_update_loop pw
          (pre.map (fun p => BEv.data p.1 p.2) ++ [BEv.data dt []]) buf s w t).reason
        = FReason.eof := by
  intro pre
  induction pre with
  | nil => intro dt buf s w t _; simp [fix_git_update_loop]
  | cons p pre' ih =>
    intro dt buf s w t hne
    have hc : ¬p.2.isEmpty := by
      simp [List.isEmpty_iff]
      exact hne p (List.mem_cons_self _ _)
    have hrest : ∀ q ∈ pre', q.2 ≠ [] := fun q hq => hne q (List.mem_cons_of_mem _ hq)
    by_cases hp : (containsSub pw (pyDecodeIgnore (buf ++ p.2)) && !s) = true
    · simp only [List.map_cons, List.cons_append, fix_git_update_loop, hc,
        Bool.false_eq_true, if_false, hp, if_true]
      exact ih dt _ _ _ _ hrest
    · simp only [List.map_cons, List.cons_append, fix_git_update_loop, hc,
        Bool.false_eq_true, if_false, hp]
      exact ih dt _ _ _ _ hrest

/-- C1 (amended): in the prompt-detection script fix_git_update.py the
`password_sent` flag gates the write, so the credential is written at most
once per session — exactly once when the exact substring `"password:"`
appears in the accumulated decoded output, and zero times otherwise; a
repeated prompt substring never triggers a second write.  (The fixed-delay
scripts write it unconditionally once before their drain loop.) -/
theorem fix_git_update_credential_writes (evs : List BEv) (childExit : Nat) :
    (fix_git_update_run evs childExit).1.writes
      = (if promptHit pwPrompt evs [] then 1 else 0) := by
  have h := fix_git_update_writes_aux pwPrompt evs [] false 0 0
  simp only [fix_git_update_run] at *
  simpa using h

/-- C1 counterexample: a session whose output contains the prompt-like
substring `"password"` twice (but never the exact text `"password:"`)
receives zero credential writes, not exactly one. -/
theorem fix_git_update_prompt_without_write_cex :
    containsSub (strCodes "password")
      (pyDecodeIgnore (strCodes "password" ++ strCodes "password")) = true
    ∧ (fix_git_update_run
        [BEv.data 0 (strCodes "password"), BEv.data 0 (strCodes "password"),
         BEv.data 0 []] 0).1.writes = 0
    ∧ (0 : Nat) ≠ 1 :=
  ⟨by decide, by decide, by decide⟩

/-- C2 (amended): the select-based drain loop of `run_ssh` re-checks the
absolute deadline on every iteration and no iteration outlasts one polling
interval (given `select` honours its timeout), so the loop returns within
`timeout + pollIv` of its start regardless of the remote command's
behaviour.  The blocking-read loops of fix_git_update.py and the sentinel
scripts have no such bound (see the counterexample). -/
theorem run_ssh_drain_bounded_return (pollIv timeout t0 : Nat) (evs : List PollEv)
    (hev : ∀ ev ∈ evs, evDur pollIv ev ≤ pollIv) :
    (run_ssh_drain pollIv (t0 + timeout) evs t0 [] []).time ≤ t0 + timeout + pollIv :=
  run_ssh_drain_time_le pollIv (t0 + timeout) evs t0 [] [] (by omega) hev

theorem run_ssh_drain_bounded_return_witness :
    (∀ ev ∈ [PollEv.quiet WaitRes.running, PollEv.ready 1 (strCodes "x")],
      evDur 1 ev ≤ 1)
    ∧ (run_ssh_drain 1 (0 + 5)
        [PollEv.quiet WaitRes.running, PollEv.ready 1 (strCodes "x")] 0 [] []).time
        ≤ 0 + 5 + 1 :=
  ⟨by decide, run_ssh_drain_bounded_return 1 5 0 _ (by decide)⟩

/-- C2 counterexample: the fix_git_update.py read loop has no deadline at
all — `os.read` simply blocks — so on a stream that stays silent for 1000
time units the step returns only at time 1000, far beyond any
`timeout + pollingInterval` bound such as the repository's common
`15 + 1`. -/
theorem fix_git_update_unbounded_cex :
    (fix_git_update_run
      [BEv.data 1000 (strCodes "still running"), BEv.data 0 []] 0).1.time = 1000
    ∧ ¬(1000 ≤ 15 + 1) :=
  ⟨by decide, by decide⟩

/-- C10: in fix_git_update.py the credential is injected only on the exact
lowercase substring `"password:"`: for a stream of nonempty chunks ending
in EOF whose accumulated decoded output never contains that substring, the
password is never written and the loop reads until EOF without
authenticating. -/
theorem fix_git_update_no_prompt_no_write (pre : List (Nat × List Nat))
    (dt childExit : Nat) (hne : ∀ p ∈ pre, p.2 ≠ [])
    (hnp : promptHit pwPrompt
      (pre.map (fun p => BEv.data p.1 p.2) ++ [BEv.data dt []]) [] = false) :
    (fix_git_update_run
      (pre.map (fun p => BEv.data p.1 p.2) ++ [BEv.data dt []]) childExit).1.writes = 0
    ∧ (fix_git_update_run
      (pre.map (fun p => BEv.data p.1 p.2) ++ [BEv.data dt []]) childExit).1.reason
        = FReason.eof := by
  constructor
  · have h := fix_git_update_writes_aux pwPrompt
      (pre.map (fun p => BEv.data p.1 p.2) ++ [BEv.data dt []]) [] false 0 0
    simp only [fix_git_update_run]
    simp [h, hnp]
  · simpa only [fix_git_update_run] using
      fix_git_update_reason_eof pwPrompt pre dt [] false 0 0 hne

theorem fix_git_update_no_prompt_no_write_witness :
    (∀ p ∈ [((0 : Nat), strCodes "Password: ")], p.2 ≠ [])
    ∧ promptHit pwPrompt
        ([((0 : Nat), strCodes "Password: ")].map (fun p => BEv.data p.1 p.2)
          ++ [BEv.data 0 []]) [] = false
    ∧ (fix_git_update_run
        ([((0 : Nat), strCodes "Password: ")].map (fun p => BEv.data p.1 p.2)
          ++ [BEv.data 0 []]) 0).1.writes = 0 :=
  ⟨by decide, by decide,
    (fix_git_update_no_prompt_no_write [((0 : Nat), strCodes "Password: ")] 0 0
      (by decide) (by decide)).1⟩

theorem run_ssh_command_loop_plain_lead (sentinel : List Nat) :
    ∀ (pre : List BEv) (dt : Nat) (c : List Nat) (rest : List BEv) (t : Nat)
      (acc : List (List Nat)) (d : List Nat),
      (∀ ev ∈ pre, plainEv sentinel ev = true) →
      utf8DecodeStrict c = some d → containsSub sentinel d = true → d ≠ [] →
      run_ssh_command_loop sentinel (pre ++ BEv.data dt c :: rest) t acc =
        .ok ⟨acc ++ pre.map decEv ++ [d], t + (pre.map evDt).sum + dt,
          .sentinelFound⟩ := by
  intro pre
  induction pre with
  | nil =>
    intro dt c rest t acc d _ hc hd hne
    have hde : ¬d.isEmpty := by simpa [List.isEmpty_iff] using hne
    simp [run_ssh_command_loop, hc, hde, hd]
  | cons ev pre' ih =>
    intro dt c rest t acc d hpre hc hd hne
    have hev : plainEv sentinel ev = true := hpre ev (List.mem_cons_self _ _)
    have hpre' : ∀ e ∈ pre', plainEv sentinel e = true :=
      fun e he => hpre e (List.mem_cons_of_mem _ he)
    cases ev with
    | oserr dt' => simp [plainEv] at hev
    | data dt' ch =>
      cases heq : utf8DecodeStrict ch with
      | none => simp [plainEv, heq] at hev
      | some d' =>
        simp only [plainEv, heq, Bool.and_eq_true, Bool.not_eq_true'] at hev
        obtain ⟨hde', hnc⟩ := hev
        have h1 := ih dt c rest (t + dt') (acc ++ [d']) d hpre' hc hd hne
        have hstep : run_ssh_command_loop sentinel
            ((BEv.data dt' ch :: pre') ++ BEv.data dt c :: rest) t acc
            = run_ssh_command_loop sentinel (pre' ++ BEv.data dt c :: rest)
              (t + dt') (acc ++ [d']) := by
          simp [run_ssh_command_loop, heq, hde', hnc]
        rw [hstep, h1]
        have hdec : decEv (BEv.data dt' ch) = d' := by simp [decEv, heq]
        simp only [List.map_cons, hdec, evDt, List.sum_cons,
          Except.ok.injEq, BRes.mk.injEq]
        exact ⟨by simp, by omega, trivial⟩

/-- C3 (amended): the sentinel scripts test the sentinel against the
latest decoded chunk only, not against the accumulated transcript: when a
single chunk wholly contains the sentinel (and the chunks before it decode
strictly, are nonempty and sentinel-free), the loop terminates immediately
after appending that chunk and the returned transcript includes the
sentinel; a sentinel split across two chunks does not terminate the loop
(see the counterexample). -/
theorem run_ssh_command_sentinel_latest_chunk (sentinel : List Nat)
    (pre : List BEv) (dt : Nat) (c : List Nat) (rest : List BEv) (t : Nat)
    (acc : List (List Nat)) (d : List Nat)
    (hpre : ∀ ev ∈ pre, plainEv sentinel ev = true)
    (hc : utf8DecodeStrict c = some d) (hd : containsSub sentinel d = true)
    (hne : d ≠ []) :
    run_ssh_command_loop sentinel (pre ++ BEv.data dt c :: rest) t acc =
      .ok ⟨acc ++ pre.map decEv ++ [d], t + (pre.map evDt).sum + dt,
        .sentinelFound⟩
    ∧ containsSub sentinel ((acc ++ pre.map decEv ++ [d]).flatten) = true := by
  refine ⟨run_ssh_command_loop_plain_lead sentinel pre dt c rest t acc d
    hpre hc hd hne, ?_⟩
  have : (acc ++ pre.map decEv ++ [d]).flatten
      = ((acc ++ pre.map decEv).flatten ++ d) := by simp
  rw [this]
  have hd' : containsSub sentinel ([] ++ d) = true := by simpa using hd
  have := containsSub_append_left ((acc ++ pre.map decEv).flatten ++ []) hd
  simpa using this

theorem run_ssh_command_sentinel_latest_chunk_witness :
    (∀ ev ∈ [BEv.data 1 (strCodes "cleaning ")],
      plainEv (strCodes "ENV_CLEANED") ev = true)
    ∧ utf8DecodeStrict (strCodes "done ENV_CLEANED")
        = some (strCodes "done ENV_CLEANED")
    ∧ containsSub (strCodes "ENV_CLEANED") (strCodes "done ENV_CLEANED") = true
    ∧ strCodes "done ENV_CLEANED" ≠ []
    ∧ (run_ssh_command_loop (strCodes "ENV_CLEANED")
        ([BEv.data 1 (strCodes "cleaning ")]
          ++ BEv.data 1 (strCodes "done ENV_CLEANED")
            :: [BEv.data 0 (strCodes "after")]) 0 []
        = .ok ⟨[] ++ [BEv.data 1 (strCodes "cleaning ")].map decEv
            ++ [strCodes "done ENV_CLEANED"],
          0 + ([BEv.data 1 (strCodes "cleaning ")].map evDt).sum + 1,
          .sentinelFound⟩
      ∧ containsSub (strCodes "ENV_CLEANED")
          (([] ++ [BEv.data 1 (strCodes "cleaning ")].map decEv
            ++ [strCodes "done ENV_CLEANED"]).flatten) = true) :=
  ⟨by decide, by decide, by decide, by decide,
    run_ssh_command_sentinel_latest_chunk (strCodes "ENV_CLEANED")
      [BEv.data 1 (strCodes "cleaning ")] 1 (strCodes "done ENV_CLEANED")
      [BEv.data 0 (strCodes "after")] 0 [] (strCodes "done ENV_CLEANED")
      (by decide) (by decide) (by decide) (by decide)⟩

/-- C3 counterexample: the sentinel `"ENV_CLEANED"` arrives split across
the chunks `"ENV_CLE"` and `"ANED"`.  It is a substring of the transcript
accumulated after the second chunk, yet the loop does not terminate there:
it keeps reading (`"X"` is appended) until EOF, because the code tests
`if "ENV_CLEANED" in data` on the latest chunk only. -/
theorem run_ssh_command_sentinel_split_cex :
    run_ssh_command_loop (strCodes "ENV_CLEANED")
      [BEv.data 0 (strCodes "ENV_CLE"), BEv.data 0 (strCodes "ANED"),
       BEv.data 0 (strCodes "X"), BEv.data 0 []] 0 []
      = .ok ⟨[strCodes "ENV_CLE", strCodes "ANED", strCodes "X"], 0,
          .eof⟩
    ∧ containsSub (strCodes "ENV_CLEANED")
        (strCodes "ENV_CLE" ++ strCodes "ANED") = true :=
  ⟨rfl, by decide⟩

/-- C9: inside `run_ssh_command` each chunk is decoded strictly by
`os.read(fd, 1024).decode()` in a handler catching only `OSError`; a
multi-byte character split at a chunk boundary (here `"€"`, encoded
`E2 82 AC`, split after its second byte) raises `UnicodeDecodeError`,
which propagates out of the function so the accumulated transcript is
lost, while an `OSError` on the same prefix is caught and the transcript
is returned. -/
theorem run_ssh_command_unicode_error_aborts :
    run_ssh_command (strCodes "ENV_CLEANED")
      [BEv.data 1 (strCodes "ok "), BEv.data 1 [0xE2, 0x82], BEv.data 1 [0xAC]]
      0 0 = .error ()
    ∧ run_ssh_command (strCodes "ENV_CLEANED")
      [BEv.data 1 (strCodes "ok "), BEv.oserr 1] 0 0
      = .ok (strCodes "ok ", 2) :=
  ⟨rfl, rfl⟩

/-- C8 (amended): the select-based scripts reap the child after the loop
with `os.waitpid(pid, os.WNOHANG)`, so `run_ssh` returns at the loop's end
time whatever the child's exit time is; the sentinel scripts (and
fix_git_update.py) instead call the blocking `os.waitpid(pid, 0)` after
their loop, so their return waits for the child's exit.  No script
forcibly kills the child. -/
theorem run_ssh_reap_nonblocking (pollIv timeout : Nat)
    (banner : Option (List Nat)) (evs : List PollEv) (t0 childExit : Nat) :
    (run_ssh pollIv timeout banner evs t0 childExit).retTime
      = (run_ssh_drain pollIv (t0 + timeout) evs t0 [] []).time
    ∧ ∀ (sentinel : List Nat) (bevs : List BEv) (tb ce : Nat) (r : BRes),
        run_ssh_command_loop sentinel bevs tb [] = .ok r →
        run_ssh_command sentinel bevs tb ce
          = .ok (r.out.flatten, max r.time ce) := by
  refine ⟨rfl, ?_⟩
  intro sentinel bevs tb ce r hr
  simp [run_ssh_command, hr, waitpidRet]

theorem run_ssh_reap_nonblocking_witness :
    run_ssh_command_loop (strCodes "DONE") [BEv.data 1 (strCodes "DONE")] 0 []
      = .ok ⟨[strCodes "DONE"], 1, .sentinelFound⟩
    ∧ run_ssh_command (strCodes "DONE") [BEv.data 1 (strCodes "DONE")] 0 7
      = .ok ((⟨[strCodes "DONE"], 1, .sentinelFound⟩ : BRes).out.flatten,
          max 1 7) :=
  ⟨rfl, (run_ssh_reap_nonblocking 1 1 none [] 0 0).2 (strCodes "DONE")
    [BEv.data 1 (strCodes "DONE")] 0 7 ⟨[strCodes "DONE"], 1, .sentinelFound⟩ rfl⟩

/-- C8 counterexample: in restart_backend_vps.py the loop ends at time 1
on the sentinel match, but the post-loop `os.waitpid(pid, 0)` blocks until
the child exits at time 1000000, so the function returns only then — the
reap is blocking, not an opportunistic non-blocking wait. -/
theorem run_ssh_command_blocking_reap_cex :
    run_ssh_command_loop (strCodes "RESTART_SUCCESS")
      [BEv.data 1 (strCodes "RESTART_SUCCESS")] 0 []
      = .ok ⟨[strCodes "RESTART_SUCCESS"], 1, .sentinelFound⟩
    ∧ run_ssh_command (strCodes "RESTART_SUCCESS")
        [BEv.data 1 (strCodes "RESTART_SUCCESS")] 0 1000000
      = .ok (strCodes "RESTART_SUCCESS", 1000000)
    ∧ (1000000 : Nat) ≠ 1 :=
  ⟨rfl, rfl, by decide⟩

theorem run_ssh_drain_flatten_decode (pollIv dl : Nat) (evs : List PollEv)
    (t : Nat) :
    (run_ssh_drain pollIv dl evs t [] []).out.flatten
      = ((run_ssh_drain pollIv dl evs t [] []).raw.map pyDecodeReplace).flatten := by
  obtain ⟨cs, h1, h2⟩ := run_ssh_drain_chunks pollIv dl evs t [] []
  rw [h1, h2]
  simp only [List.nil_append]
  exact flatten_filter_decode cs

theorem run_ssh_drain_ascii_flatten (pollIv dl : Nat) (evs : List PollEv)
    (t : Nat)
    (hascii : ∀ c ∈ (run_ssh_drain pollIv dl evs t [] []).raw, ∀ b ∈ c, b < 0x80) :
    (run_ssh_drain pollIv dl evs t [] []).out.flatten
      = (run_ssh_drain pollIv dl evs t [] []).raw.flatten := by
  rw [run_ssh_drain_flatten_decode pollIv dl evs t]
  have hmap : (run_ssh_drain pollIv dl evs t [] []).raw.map pyDecodeReplace
      = (run_ssh_drain pollIv dl evs t [] []).raw := by
    have := List.map_congr_left (fun c hc => pyDecodeReplace_ascii (hascii c hc))
    simpa using this
  rw [hmap]

/-- C5 (amended): the drain loop of `run_ssh` appends chunks in arrival
order without reordering or dropping any chunk, so concatenating the
transcript's chunks reproduces, in order, the per-chunk
`decode(errors='replace')` of the byte sequence read from the stream; when
every byte read is ASCII this is the exact byte sequence, but invalid
UTF-8 bytes are altered by the replacement decoding (see the
counterexample). -/
theorem run_ssh_drain_transcript_roundtrip (pollIv dl : Nat)
    (evs : List PollEv) (t : Nat) :
    (run_ssh_drain pollIv dl evs t [] []).out.flatten
      = ((run_ssh_drain pollIv dl evs t [] []).raw.map pyDecodeReplace).flatten
    ∧ ((∀ c ∈ (run_ssh_drain pollIv dl evs t [] []).raw, ∀ b ∈ c, b < 0x80) →
        (run_ssh_drain pollIv dl evs t [] []).out.flatten
          = (run_ssh_drain pollIv dl evs t [] []).raw.flatten) :=
  ⟨run_ssh_drain_flatten_decode pollIv dl evs t,
    run_ssh_drain_ascii_flatten pollIv dl evs t⟩

theorem run_ssh_drain_transcript_roundtrip_witness :
    (∀ c ∈ (run_ssh_drain 1 5
        [PollEv.ready 0 (strCodes "ab"), PollEv.ready 0 []] 0 [] []).raw,
      ∀ b ∈ c, b < 0x80)
    ∧ (run_ssh_drain 1 5
        [PollEv.ready 0 (strCodes "ab"), PollEv.ready 0 []] 0 [] []).out.flatten
      = (run_ssh_drain 1 5
        [PollEv.ready 0 (strCodes "ab"), PollEv.ready 0 []] 0 [] []).raw.flatten :=
  ⟨by decide, (run_ssh_drain_transcript_roundtrip 1 5
    [PollEv.ready 0 (strCodes "ab"), PollEv.ready 0 []] 0).2 (by decide)⟩

/-- C5 counterexample: the byte `0xFF` read from the stream is altered by
`decode(errors='replace')` to U+FFFD, so concatenating the transcript's
chunks yields `[0xFFFD]`, not the byte sequence `[0xFF]` that was read. -/
theorem run_ssh_drain_decode_alters_cex :
    (run_ssh_drain 1 15 [PollEv.ready 0 [0xFF], PollEv.ready 0 []]
      0 [] []).out.flatten = [0xFFFD]
    ∧ (run_ssh_drain 1 15 [PollEv.ready 0 [0xFF], PollEv.ready 0 []]
      0 [] []).raw.flatten = [0xFF]
    ∧ ([0xFFFD] : List Nat) ≠ [0xFF] :=
  ⟨rfl, rfl, by decide⟩

/-- C4 (amended): the `__main__` sequence calls `run_ssh` once per step,
strictly in order, and collects exactly one transcript per step; a step
that ends by timeout or whose remote command exits non-zero returns its
transcript normally and never aborts the sequence (exit status is not even
inspected).  However, an `OSError` from `pty.fork()` (SpawnError) is
uncaught and aborts the entire remaining sequence, not only the current
step (see the counterexample). -/
theorem scriptMain_fail_open (pollIv t0 : Nat) (envs : List StepEnv)
    (h : ∀ e ∈ envs, e ≠ StepEnv.forkFail) :
    scriptMain pollIv t0 envs = .ok (envs.map (stepTranscript pollIv t0)) := by
  induction envs with
  | nil => rfl
  | cons e rest ih =>
    cases e with
    | forkFail => exact absurd rfl (h _ (List.mem_cons_self _ _))
    | spawned b evs timeout ce =>
      have hrest := ih (fun x hx => h x (List.mem_cons_of_mem _ hx))
      simp [scriptMain, hrest, stepTranscript]

theorem scriptMain_fail_open_witness :
    (∀ e ∈ [StepEnv.spawned none
        [PollEv.ready 0 (strCodes "A"), PollEv.ready 0 []] 5 0,
      StepEnv.spawned none [PollEv.quiet WaitRes.running] 1 0],
      e ≠ StepEnv.forkFail)
    ∧ scriptMain 1 0 [StepEnv.spawned none
        [PollEv.ready 0 (strCodes "A"), PollEv.ready 0 []] 5 0,
      StepEnv.spawned none [PollEv.quiet WaitRes.running] 1 0]
      = .ok ([StepEnv.spawned none
          [PollEv.ready 0 (strCodes "A"), PollEv.ready 0 []] 5 0,
        StepEnv.spawned none [PollEv.quiet WaitRes.running] 1 0].map
          (stepTranscript 1 0)) :=
  ⟨by decide, scriptMain_fail_open 1 0 _ (by decide)⟩

/-- C4 counterexample: with the first step's `pty.fork()` raising
(SpawnError) the whole script dies with the uncaught exception — no
transcript is produced for the second step, which on its own would have
succeeded and produced the transcript `"C"`. -/
theorem scriptMain_spawn_error_aborts_cex :
    scriptMain 1 0 [StepEnv.forkFail,
      StepEnv.spawned none
        [PollEv.ready 0 (strCodes "C"), PollEv.ready 0 []] 5 0]
      = .error ()
    ∧ scriptMain 1 0 [StepEnv.spawned none
        [PollEv.ready 0 (strCodes "C"), PollEv.ready 0 []] 5 0]
      = .ok [strCodes "C"] :=
  ⟨rfl, rfl⟩

/-- C6 (amended): the drain loop internally distinguishes its exit paths
— a stream whose first poll reads EOF exits through the empty-read break
(`streamClosed`), not through the deadline — and a step whose remote
process closes its output immediately yields an empty transcript.  But
`run_ssh` returns only `"".join(output)`: the termination reason is not
part of the caller-visible result (see the counterexample). -/
theorem run_ssh_drain_immediate_eof (pollIv timeout dt t0 childExit : Nat)
    (evs : List PollEv) (h1 : 0 < timeout) :
    (run_ssh_drain pollIv (t0 + timeout) (PollEv.ready dt [] :: evs)
        t0 [] []).reason = DrainReason.streamClosed
    ∧ (run_ssh_drain pollIv (t0 + timeout) (PollEv.ready dt [] :: evs)
        t0 [] []).reason ≠ DrainReason.timeout
    ∧ (run_ssh pollIv timeout none (PollEv.ready dt [] :: evs)
        t0 childExit).transcript = []
    ∧ (run_ssh_drain pollIv (t0 + timeout) (PollEv.ready dt [] :: evs)
        t0 [] []).time = t0 + dt := by
  have hd : ¬(t0 + timeout ≤ t0) := by omega
  refine ⟨?_, ?_, ?_, ?_⟩ <;>
    simp [run_ssh_drain, run_ssh, hd, pyDecodeReplace, utf8DecodeAux,
      utf8DecodeFuel, waitpidRet]

theorem run_ssh_drain_immediate_eof_witness :
    (0 : Nat) < 15
    ∧ (run_ssh_drain 1 (0 + 15) (PollEv.ready 2 [] :: [PollEv.quiet WaitRes.running])
        0 [] []).reason = DrainReason.streamClosed
    ∧ (run_ssh 1 15 none (PollEv.ready 2 [] :: [PollEv.quiet WaitRes.running])
        0 0).transcript = [] :=
  ⟨by decide,
    (run_ssh_drain_immediate_eof 1 15 2 0 0 [PollEv.quiet WaitRes.running]
      (by decide)).1,
    (run_ssh_drain_immediate_eof 1 15 2 0 0 [PollEv.quiet WaitRes.running]
      (by decide)).2.2.1⟩

/-- C6 counterexample: a step that ends by an immediate EOF and a step
that ends by deadline exhaustion have different internal termination
reasons, yet `run_ssh` returns the identical value (the empty transcript)
for both — the caller is not given the termination reason, contrary to
the claim that it is returned alongside the transcript. -/
theorem run_ssh_reason_not_returned_cex :
    (run_ssh 1 5 none [PollEv.ready 0 []] 0 0).transcript
      = (run_ssh 1 5 none [PollEv.quiet WaitRes.running,
          PollEv.quiet WaitRes.running, PollEv.quiet WaitRes.running,
          PollEv.quiet WaitRes.running, PollEv.quiet WaitRes.running] 0 0).transcript
    ∧ (run_ssh_drain 1 (0 + 5) [PollEv.ready 0 []] 0 [] []).reason
        = DrainReason.streamClosed
    ∧ (run_ssh_drain 1 (0 + 5) [PollEv.quiet WaitRes.running,
          PollEv.quiet WaitRes.running, PollEv.quiet WaitRes.running,
          PollEv.quiet WaitRes.running, PollEv.quiet WaitRes.running]
        0 [] []).reason = DrainReason.timeout
    ∧ DrainReason.streamClosed ≠ DrainReason.timeout :=
  ⟨rfl, rfl, rfl, by decide⟩

/-- C7 (amended): the transcript `run_ssh` returns is the ordered capture
of the bytes read inside the drain loop only — it is unchanged by the
banner, equals (for ASCII streams) exactly the loop-read byte sequence,
and whenever the pre-password banner read returned any bytes, those bytes
were read during the step but are omitted from the returned transcript
(the source binds them to `initial` and discards them). -/
theorem run_ssh_banner_discarded (pollIv timeout : Nat) (bb : List Nat)
    (evs : List PollEv) (t0 childExit : Nat)
    (hascii : ∀ c ∈ (run_ssh_drain pollIv (t0 + timeout) evs t0 [] []).raw,
      ∀ b ∈ c, b < 0x80) :
    (run_ssh pollIv timeout (some bb) evs t0 childExit).transcript
      = (run_ssh pollIv timeout none evs t0 childExit).transcript
    ∧ (run_ssh pollIv timeout (some bb) evs t0 childExit).transcript
      = (run_ssh_drain pollIv (t0 + timeout) evs t0 [] []).raw.flatten
    ∧ bytesReadA (some bb) (run_ssh_drain pollIv (t0 + timeout) evs t0 [] [])
      = bb ++ (run_ssh_drain pollIv (t0 + timeout) evs t0 [] []).raw.flatten
    ∧ (bb ≠ [] →
        (run_ssh pollIv timeout (some bb) evs t0 childExit).transcript
          ≠ bytesReadA (some bb)
              (run_ssh_drain pollIv (t0 + timeout) evs t0 [] [])) := by
  have h2 : (run_ssh pollIv timeout (some bb) evs t0 childExit).transcript
      = (run_ssh_drain pollIv (t0 + timeout) evs t0 [] []).raw.flatten :=
    run_ssh_drain_ascii_flatten pollIv (t0 + timeout) evs t0 hascii
  refine ⟨rfl, h2, rfl, ?_⟩
  intro hbb hEq
  rw [h2] at hEq
  have hlen := congrArg List.length hEq
  simp only [bytesReadA, Option.getD_some, List.length_append] at hlen
  have : bb.length = 0 := by omega
  exact hbb (List.length_eq_zero.mp this)

theorem run_ssh_banner_discarded_witness :
    (∀ c ∈ (run_ssh_drain 1 (0 + 15)
        [PollEv.ready 0 (strCodes "out"), PollEv.ready 0 []] 0 [] []).raw,
      ∀ b ∈ c, b < 0x80)
    ∧ (run_ssh 1 15 (some (strCodes "B"))
        [PollEv.ready 0 (strCodes "out"), PollEv.ready 0 []] 0 0).transcript
      = (run_ssh_drain 1 (0 + 15)
        [PollEv.ready 0 (strCodes "out"), PollEv.ready 0 []] 0 [] []).raw.flatten :=
  ⟨by decide,
    (run_ssh_banner_discarded 1 15 (strCodes "B")
      [PollEv.ready 0 (strCodes "out"), PollEv.ready 0 []] 0 0 (by decide)).2.1⟩

/-- C7 counterexample: the banner text `"B"` is read from the stream
before the credential write, so the bytes read during the step are
`"Bout"`, but the returned transcript is only `"out"` — the banner bytes
are omitted from the transcript, contrary to the claim that no bytes read
are omitted. -/
theorem run_ssh_banner_omitted_cex :
    (run_ssh 1 15 (some (strCodes "B"))
      [PollEv.ready 0 (strCodes "out"), PollEv.ready 0 []] 0 0).transcript
      = strCodes "out"
    ∧ bytesReadA (some (strCodes "B")) (run_ssh_drain 1 (0 + 15)
        [PollEv.ready 0 (strCodes "out"), PollEv.ready 0 []] 0 [] [])
      = strCodes "Bout"
    ∧ containsSub (strCodes "B") (strCodes "out") = false
    ∧ containsSub (strCodes "B") (strCodes "Bout") = true :=
  ⟨rfl, rfl, by decide, by decide⟩
